import Mathlib

/-!
Verification of the micro_trade_bot repository.

Shallow embedding conventions:
* Python floats are modelled as exact rationals (ℚ).  The spec's numeric
  examples are stated over exact decimal values, so ℚ is the faithful
  abstraction of the intended real-number arithmetic.
* Python strings are modelled as lists of characters (`Str`).
* `round(x, n)` (Python's builtin, round-half-to-even) is modelled exactly
  on ℚ by `roundTo`.
* Dict lookups with defaults become `Option` with `getD`; fallible code
  returns `Option`.
* Wall-clock times and timestamps are rationals; the callers pass
  `time.time()` as an explicit `now` argument.
-/

/-- Python strings as character lists. -/
abbrev Str := List Char

/-- Round half to even on an integer boundary, Python's `round` on a value
already scaled to an integer position. -/
def roundHalfEven (x : ℚ) : ℤ :=
  let f := ⌊x⌋
  let r := x - f
  if r < 1/2 then f
  else if 1/2 < r then f + 1
  else if f % 2 = 0 then f else f + 1

/-- Python's `round(x, n)` for `n ≥ 0` decimal places, on exact rationals. -/
def roundTo (n : ℕ) (x : ℚ) : ℚ := (roundHalfEven (x * 10 ^ n) : ℚ) / 10 ^ n

/-! ## config.py constants used by the modelled code -/

/-- `config.MAX_ACCOUNT_USAGE_PERCENT` -/
def MAX_ACCOUNT_USAGE_PERCENT : ℚ := 0.10

/-- `config.MAX_TRADE_SIZE_PERCENT` -/
def MAX_TRADE_SIZE_PERCENT : ℚ := 0.03

/-- `config.PRICE_RANGE_MED` -/
def PRICE_RANGE_MED : ℚ := 0.05

/-- `config.PRICE_RANGE_HIGH` -/
def PRICE_RANGE_HIGH : ℚ := 0.15

/-- `config.RISK_MULTIPLIER_LOW` -/
def RISK_MULTIPLIER_LOW : ℚ := 1.0

/-- `config.RISK_MULTIPLIER_MED` -/
def RISK_MULTIPLIER_MED : ℚ := 0.7

/-- `config.RISK_MULTIPLIER_HIGH` -/
def RISK_MULTIPLIER_HIGH : ℚ := 0.4

/-- `config.PROFIT_MARGIN_LOW` -/
def PROFIT_MARGIN_LOW : ℚ := 0.003

/-- `config.PROFIT_MARGIN_MED` -/
def PROFIT_MARGIN_MED : ℚ := 0.002

/-- `config.PROFIT_MARGIN_HIGH` -/
def PROFIT_MARGIN_HIGH : ℚ := 0.001

/-- `config.BALANCE_CACHE_DURATION` (seconds) -/
def BALANCE_CACHE_DURATION : ℚ := 60

/-! ## utils/helpers.py -/

/-- Price category returned by `utils.helpers.get_price_range_category`. -/
inductive PriceCategory
  | low
  | medium
  | high
deriving DecidableEq, Repr

/-- `utils.helpers.get_price_range_category`. -/
def get_price_range_category (price : ℚ) : PriceCategory :=
  if price ≤ PRICE_RANGE_MED then .low
  else if price ≤ PRICE_RANGE_HIGH then .medium
  else .high

/-- `utils.helpers.get_risk_multiplier`. -/
def get_risk_multiplier (price : ℚ) : ℚ :=
  match get_price_range_category price with
  | .low => RISK_MULTIPLIER_LOW
  | .medium => RISK_MULTIPLIER_MED
  | .high => RISK_MULTIPLIER_HIGH

/-- `utils.helpers.get_profit_margin`. -/
def get_profit_margin (price : ℚ) : ℚ :=
  match get_price_range_category price with
  | .low => PROFIT_MARGIN_LOW
  | .medium => PROFIT_MARGIN_MED
  | .high => PROFIT_MARGIN_HIGH

/-! ## utils/profit.py -/

/-- A filled buy order as collected by `calculate_trade_profit`
(utils/profit.py, lines 64-71): the dict built from a recently closed,
(nearly) fully filled buy order of the sell's pair. -/
structure FilledBuy where
  txid : Str
  pair : Str
  volume : ℚ
  price : ℚ
  cost : ℚ
  fee : ℚ
deriving DecidableEq, Repr

/-- The sell trade dict handed to `calculate_trade_profit`
(fields read at utils/profit.py lines 84-86). -/
structure SellTrade where
  pair : Str
  volume : ℚ
  price : ℚ
  fees : ℚ
deriving DecidableEq, Repr

/-- Python string `<` (lexicographic on characters), used by
`filled_buy_orders.sort(key=lambda x: x.get("txid", ""))`. -/
def strLt : Str → Str → Bool
  | [], [] => false
  | [], _ :: _ => true
  | _ :: _, [] => false
  | a :: as, b :: bs => if a < b then true else if b < a then false else strLt as bs

/-- Stable insertion of a buy order into a txid-sorted list: the new element
goes before the first strictly greater key, matching Python's stable sort. -/
def insertByTxid (b : FilledBuy) : List FilledBuy → List FilledBuy
  | [] => [b]
  | c :: cs => if strLt c.txid b.txid then c :: insertByTxid b cs else b :: c :: cs

/-- `filled_buy_orders.sort(key=lambda x: x.get("txid", ""))`
(utils/profit.py line 92), a stable ascending sort by txid. -/
def sortByTxid : List FilledBuy → List FilledBuy
  | [] => []
  | b :: bs => insertByTxid b (sortByTxid bs)

/-- One matched buy and the volume taken from it.  This is the
`matched_volume = min(remaining_sell_volume, buy_volume)` of
utils/profit.py line 107; the paired list is what legacy.py calls
`matched_buy_trades` and feeds to `update_matched_buy_trades`. -/
abbrev MatchEntry := FilledBuy × ℚ

/-- The FIFO matching loop of `calculate_trade_profit`
(utils/profit.py lines 95-113).  Walks the (sorted) buy orders while sell
volume remains, accumulating matched cost, pro-rated buy fees and the
per-buy matched volumes.  Returns
(remaining unmatched sell volume, total_cost, total_buy_fees, matches). -/
def fifoMatch : List FilledBuy → ℚ → ℚ × ℚ × ℚ × List MatchEntry
  | [], rem => (rem, 0, 0, [])
  | b :: bs, rem =>
    if rem ≤ 0 then (rem, 0, 0, [])
    else
      let mv := min rem b.volume
      let mc := mv * b.price
      let mf := if 0 < b.volume then b.fee * (mv / b.volume) else 0
      let r := fifoMatch bs (rem - mv)
      (r.1, r.2.1 + mc, r.2.2.1 + mf, (b, mv) :: r.2.2.2)

/-- Result of `calculate_trade_profit`.  The Python function returns only
`profit`; the other fields expose the loop's local variables
(`total_cost`, `total_buy_fees`, `sell_revenue`,
`remaining_sell_volume` — logged as a shortfall warning when positive —
and the matched-buy list of the FIFO loop). -/
structure ProfitResult where
  profit : ℚ
  cost : ℚ
  buyFees : ℚ
  revenue : ℚ
  unmatched : ℚ
  matchList : List MatchEntry
deriving DecidableEq, Repr

/-- `utils.profit.calculate_trade_profit` (lines 83-123), given the filled
buy orders of the sell's pair already collected from the closed-orders
response.  Returns `none` when there are no buys or no positive sell
volume; otherwise sorts the buys by txid, FIFO-matches the sell volume
and computes `profit = sell_revenue - (total_cost + total_buy_fees + sell_fee)`
with `sell_revenue = sell_volume * sell_price`. -/
def calculate_trade_profit (sell : SellTrade) (buys : List FilledBuy) :
    Option ProfitResult :=
  if buys.isEmpty ∨ sell.volume ≤ 0 then none
  else
    let sorted := sortByTxid buys
    let m := fifoMatch sorted sell.volume
    let revenue := sell.volume * sell.price
    some ⟨revenue - (m.2.1 + m.2.2.1 + sell.fees), m.2.1, m.2.2.1, revenue,
          m.1, m.2.2.2⟩

/-- Trade type stored in a trade record. -/
inductive TradeType
  | buy
  | sell
deriving DecidableEq, Repr

/-- A trade record persisted in `config.TRADES_FILE`, with the fields read
by `update_matched_buy_trades` (utils/profit.py lines 159-167);
`matched_volume` defaults to 0 and `fully_matched` to false when the keys
are absent, matching the `.get` defaults. -/
structure TradeRecord where
  order_id : Str
  ttype : TradeType
  pair : Str
  price : ℚ
  volume : ℚ
  fees : ℚ
  timestamp : ℚ
  matched_volume : ℚ
  fully_matched : Bool
deriving DecidableEq, Repr

/-- The in-place update of one matched buy record
(utils/profit.py lines 165-167). -/
def applyMatchUpdate (t : TradeRecord) (mv : ℚ) : TradeRecord :=
  let m := t.matched_volume + mv
  { t with
    matched_volume := m
    fully_matched := if t.volume ≤ m then true else t.fully_matched }

/-- The inner search of `update_matched_buy_trades`
(utils/profit.py lines 159-170): update the first record whose order id,
type `buy` and pair match, then stop. -/
def updateFirstMatching : List TradeRecord → Str → Str → ℚ → List TradeRecord
  | [], _, _, _ => []
  | t :: ts, oid, pr, mv =>
    if t.order_id = oid ∧ t.ttype = .buy ∧ t.pair = pr then
      applyMatchUpdate t mv :: ts
    else
      t :: updateFirstMatching ts oid pr mv

/-- The update loop written in the body of
`utils.profit.update_matched_buy_trades` (lines 137-176) as a pure
transformation of the trades file contents, taking each match as the
matched buy's order id with its matched volume
(`match_info['trade']['order_id']` / `match_info['matched_volume']`): an
empty match list returns early; otherwise every matched buy adds its
volume onto the first matching stored record, setting `fully_matched`
once the whole volume is consumed.  This body is unreachable in the real
program — see `update_matched_buy_trades`. -/
def update_matched_buy_trades_body (records : List TradeRecord)
    (matchList : List (Str × ℚ)) (pair : Str) : List TradeRecord :=
  if matchList.isEmpty then records
  else matchList.foldl (fun rs m => updateFirstMatching rs m.1 pair m.2) records

/-- `utils.profit.update_matched_buy_trades` (lines 130-181) as it
actually executes.  profit.py never imports `config` at module scope (the
only `import config` is local to `calculate_trade_profit`), so with a
non-empty match list the reference to `config.TRADES_FILE` at line 142
raises `NameError` before the trades file is read or written; the
`except Exception` at line 180 swallows it and the function returns
having persisted nothing.  An empty match list returns early at line 138.
Either way the stored records are unchanged. -/
def update_matched_buy_trades (records : List TradeRecord)
    (_matchList : List (Str × ℚ)) (_pair : Str) : List TradeRecord :=
  records

/-! ## trading/order_manager.py -/

/-- Order side read from `descr["type"]`. -/
inductive OType
  | buy
  | sell
  | other
deriving DecidableEq, Repr

/-- An open order as it appears in the `get_open_orders` response and is
read by `manage_open_orders` (trading/order_manager.py lines 31-71).
`hasRequired` models the presence of the `opentm` and `descr` keys;
`descrPrice` is the parsed `descr["price"]` (`none` for a non-numeric
string). -/
structure OpenOrder where
  txid : Str
  hasRequired : Bool
  opentm : ℚ
  descrPrice : Option ℚ
  vol : ℚ
  otype : OType
  pair : Str
deriving DecidableEq, Repr

/-- The float value of `descr["price"]` with the dict default 0. -/
def priceOf (o : OpenOrder) : ℚ := o.descrPrice.getD 0

/-- An order survives the validation at order_manager.py lines 34-64:
required fields present, a numeric positive price and a positive volume.
Only such orders contribute to the recomputed open-order value and are
eligible for cancellation. -/
def validOrder (o : OpenOrder) : Bool :=
  o.hasRequired && decide (0 < priceOf o) && decide (0 < o.vol)

/-- `order_value = price * volume` (order_manager.py line 70). -/
def orderValue (o : OpenOrder) : ℚ := priceOf o * o.vol

/-- The staleness classification of `manage_open_orders`
(order_manager.py lines 73-110) for one validated order: cancel
unconditionally after 30 minutes; between 10 and 30 minutes refetch the
market price (`market o.pair`, `none` when no usable ticker data comes
back) and cancel a buy order when the current price is below 95% of the
order price or above 102% of it.  Returns `true` when the order is
appended to `orders_to_cancel`. -/
def markedForCancel (now : ℚ) (market : Str → Option ℚ) (o : OpenOrder) : Bool :=
  let time_open := now - o.opentm
  if 1800 < time_open then true
  else if 600 < time_open then
    match market o.pair with
    | none => false
    | some current =>
      if o.otype = .buy ∧ current < priceOf o * 0.95 then true
      else if o.otype = .buy ∧ priceOf o * 1.02 < current then true
      else false
  else false

/-- Outcome of one `exchange.cancel_order` call: `true` models a truthy
cancel result, `false` a falsy result or a raised exception (both leave
the order on the books; order_manager.py lines 132-138). -/
abbrev CancelOutcome := Str → Bool

/-- `trading.order_manager.manage_open_orders` (lines 14-147) as a pure
function of one cycle: the incoming ledger value `ledgerIn`
(`exchange_open_order_values[exchange_name]`) is read and then reset, the
value of every validated open order is summed, stale orders are marked,
their value is summed and subtracted (clamped at 0) after the cancel
calls — whose outcomes are only logged.  Returns the written-back ledger
value and the `len(orders_to_cancel) > 0` result. -/
def manage_open_orders (orders : List OpenOrder) (now : ℚ)
    (market : Str → Option ℚ) (outcome : CancelOutcome) (ledgerIn : ℚ) :
    ℚ × Bool :=
  let _ := ledgerIn
  let _ := outcome
  let valids := orders.filter validOrder
  let total := (valids.map orderValue).sum
  let toCancel := valids.filter (markedForCancel now market)
  let canceledValue := (toCancel.map orderValue).sum
  let ledger := if 0 < canceledValue then max 0 (total - canceledValue) else total
  (ledger, !toCancel.isEmpty)

/-- The orders still open on the exchange once the cancel calls of
`manage_open_orders` have run: everything except the marked orders whose
cancel call succeeded. -/
def stillOpenAfter (orders : List OpenOrder) (now : ℚ)
    (market : Str → Option ℚ) (outcome : CancelOutcome) : List OpenOrder :=
  orders.filter fun o =>
    !(validOrder o && markedForCancel now market o && outcome o.txid)

/-- Pair metadata looked up from `get_tradable_pairs`
(order_manager.py lines 482-492), with its fallback defaults. -/
structure PairInfo where
  lot_decimals : ℕ
  pair_decimals : ℕ
  ordermin : ℚ
deriving DecidableEq, Repr

/-- The sell-placement tail of
`trading.order_manager.check_and_place_sell_orders` (lines 478-518) for
one filled buy order, entered with the settled sell volume from the
balance checks: skip when the volume is below `ordermin`; otherwise
derive the realized fee rate from the buy (`fee / cost`, defaulting to
0.0026 on a non-positive cost), set
`min_sell_price = round(buy_price * (1 + 2 * fee_rate + profit_margin),
price_decimals)` and place the sell.  Returns the placed
(volume, price), or `none` when skipped. -/
def check_and_place_sell_order (buy : FilledBuy) (sellVolume : ℚ)
    (info : PairInfo) : Option (ℚ × ℚ) :=
  if sellVolume < info.ordermin then none
  else
    let actual_fee_rate := if 0 < buy.cost then buy.fee / buy.cost else 0.0026
    let profit_margin := get_profit_margin buy.price
    let total_fees := actual_fee_rate * 2
    let min_sell_price := roundTo info.pair_decimals
      (buy.price * (1 + total_fees + profit_margin))
    some (sellVolume, min_sell_price)

/-- `legacy.place_sell_order_kraken` (legacy.py lines 805-853), the
superseded monolith path: same minimum-sell-price formula, but with the
sell-value sanity guards — reject when the sell value falls below 95% of
the buy value or the expected profit exceeds 200% of the buy value. -/
def place_sell_order_kraken (buyPrice volume estimatedFees : ℚ)
    (priceDecimals : ℕ) : Option (ℚ × ℚ) :=
  let profit_margin := get_profit_margin buyPrice
  let total_fees := estimatedFees * 2
  let min_sell_price := roundTo priceDecimals
    (buyPrice * (1 + total_fees + profit_margin))
  if volume ≤ 0 then none
  else if min_sell_price ≤ 0 then none
  else
    let sell_value := volume * min_sell_price
    let buy_value := volume * buyPrice
    let expected_profit := sell_value - buy_value
    if sell_value < buy_value * 0.95 then none
    else if buy_value * 2 < expected_profit then none
    else some (volume, min_sell_price)

/-! ## trading/strategy.py -/

/-- The order-book information used by `calculate_dynamic_buy_price`:
`none` when `get_order_book` returned nothing usable, `some none` when a
book came back without bids, `some (some bid)` for the best bid. -/
abbrev BookInfo := Option (Option ℚ)

/-- `trading.strategy.calculate_dynamic_buy_price` (lines 10-54): quote
just above the best bid (or just above the current price on the
fallbacks), cap at 1% above the current price, and round.  The `decimals`
argument is what the caller passes as `lot_decimals`
(`simple_trading_strategy` passes its price decimals there). -/
def calculate_dynamic_buy_price (current : ℚ) (book : BookInfo)
    (decimals : ℕ) : ℚ :=
  let buy_price :=
    match book with
    | some (some best_bid) => best_bid * 1.0001
    | some none => current * 1.0002
    | none => current * 1.0001
  roundTo decimals (min buy_price (current * 1.01))

/-- `trading.strategy.simple_trading_strategy` (lines 57-245) reduced to
its pure sizing-and-placement decision for one pair, with the decimal
precisions already resolved from the pair info and the order-book state
as an argument.  Returns `some (volume, price)` when a buy order is sent
to the exchange and `none` when the function returns without placing
one.  The written-back ledger after a placement is
`totalOpenOrderValue + price * volume` (lines 207-211). -/
def simple_trading_strategy (current_price fees account_balance ordermin : ℚ)
    (lot_decimals price_decimals : ℕ) (book : BookInfo)
    (totalOpenOrderValue : ℚ) : Option (ℚ × ℚ) :=
  let risk_multiplier := get_risk_multiplier current_price
  let base_max_trade_amount := account_balance * MAX_ACCOUNT_USAGE_PERCENT
  let max_total_trade_amount := base_max_trade_amount * risk_multiplier
  let remaining_budget := max_total_trade_amount - totalOpenOrderValue
  if remaining_budget ≤ 0 then none
  else
    let fee_multiplier := 1 + fees
    let max_volume0 := remaining_budget / (current_price * fee_multiplier)
    let trade_size_limit := MAX_TRADE_SIZE_PERCENT * risk_multiplier
    let max_volume := max_volume0 * trade_size_limit
    let volume_to_trade := max (roundTo lot_decimals max_volume) ordermin
    if volume_to_trade ≤ 0 then none
    else if volume_to_trade < ordermin then none
    else
      let buy_price := calculate_dynamic_buy_price current_price book price_decimals
      let order_value := buy_price * volume_to_trade
      if max_total_trade_amount < totalOpenOrderValue + order_value then none
      else some (volume_to_trade, buy_price)

/-! ## bot.py: get_cached_balance -/

/-- A balance mapping (currency code to amount).  Python truthiness of the
cached value is emptiness of this list (`None` or an empty dict are both
falsy). -/
abbrev Balance := List (Str × ℚ)

/-- One slot of `balance_cache`: the cached response (or `none`) and the
time it was stored. -/
structure CacheEntry where
  data : Option Balance
  timestamp : ℚ
deriving DecidableEq, Repr

/-- `cache_entry['data']` is truthy: present and a non-empty mapping. -/
def cacheDataTruthy : Option Balance → Bool
  | none => false
  | some b => !b.isEmpty

/-- One `exchange.get_balance()` outcome inside the retry loop of
`get_cached_balance` (bot.py lines 85-130): `noneResp` for a `None`
return, `dict entries rateLimited` for a dict response (`rateLimited`
models a non-empty rate-limit error list), `raised rateLimit` for an
exception. -/
inductive FetchResult
  | noneResp
  | dict (entries : Balance) (rateLimited : Bool)
  | raised (rateLimit : Bool)
deriving DecidableEq, Repr

/-- What the body of one loop iteration does with a response. -/
inductive FetchStep
  | success (b : Balance)
  | retry
  | abort
deriving DecidableEq, Repr

/-- One iteration of the retry loop (bot.py lines 86-130): a `None`
response retries with backoff; a truthy dict with a rate-limit error
retries; any other truthy dict is cached and returned; a falsy (empty)
dict logs and retries; a rate-limit exception retries and any other
exception breaks out of the loop. -/
def fetchStep : FetchResult → FetchStep
  | .noneResp => .retry
  | .dict entries rateLimited =>
    if !entries.isEmpty || rateLimited then
      if rateLimited then .retry else .success entries
    else .retry
  | .raised rateLimit => if rateLimit then .retry else .abort

/-- Result of `get_cached_balance`, instrumented with the state of the
cache slot afterwards and the number of `exchange.get_balance()` network
requests issued. -/
structure GCBResult where
  ret : Option Balance
  cache : CacheEntry
  requests : ℕ
deriving DecidableEq, Repr

/-- The `for attempt in range(max_retries)` loop of `get_cached_balance`
(bot.py lines 84-133): `i` counts requests issued so far, `k` the
attempts left (3 at entry).  A success writes the fresh data and `now`
into the cache slot and returns it; exhaustion or a non-rate-limit
exception returns `None` with the cache untouched. -/
def fetchLoop (entry : CacheEntry) (now : ℚ) (fetch : ℕ → FetchResult) :
    ℕ → ℕ → GCBResult
  | i, 0 => ⟨none, entry, i⟩
  | i, k + 1 =>
    match fetchStep (fetch i) with
    | .success b => ⟨some b, ⟨some b, now⟩, i + 1⟩
    | .retry => fetchLoop entry now fetch (i + 1) k
    | .abort => ⟨none, entry, i + 1⟩

/-- `bot.get_cached_balance` (lines 71-133): serve the cached mapping —
issuing no request — when a refresh is not forced, the cached data is
truthy and its age is below `config.BALANCE_CACHE_DURATION`; otherwise
run the fetch loop with up to 3 attempts, where `fetch i` is the outcome
of the i-th `exchange.get_balance()` call. -/
def get_cached_balance (entry : CacheEntry) (now : ℚ) (force_refresh : Bool)
    (fetch : ℕ → FetchResult) : GCBResult :=
  if !force_refresh && cacheDataTruthy entry.data
      && decide (now - entry.timestamp < BALANCE_CACHE_DURATION) then
    ⟨entry.data, entry, 0⟩
  else
    fetchLoop entry now fetch 0 3

/-! ## exchanges/kraken.py and exchanges/bitmart.py: pair normalization -/

/-- `ExchangeKraken.normalize_pair` (kraken.py lines 319-326,
`get_pair_format` is the same function): Kraken uses no separator, so
every underscore is removed (`pair.replace('_', '')`). -/
def kraken_normalize_pair (p : Str) : Str := p.filter (fun c => c != '_')

/-- `ExchangeBitMart.normalize_pair` (bitmart.py lines 406-423,
`get_pair_format` is the same function): insert the underscore before a
recognized quote suffix when the pair has none and is long enough. -/
def bitmart_normalize_pair (p : Str) : Str :=
  if !p.contains '_' && decide (4 < p.length) then
    if ("USDT".toList).isSuffixOf p then p.take (p.length - 4) ++ "_USDT".toList
    else if ("USD".toList).isSuffixOf p then p.take (p.length - 3) ++ "_USD".toList
    else if ("BTC".toList).isSuffixOf p then p.take (p.length - 3) ++ "_BTC".toList
    else if ("ETH".toList).isSuffixOf p then p.take (p.length - 3) ++ "_ETH".toList
    else p
  else p

/-! ## Concrete scenario data -/

/-- The pair used by the spec's concrete FIFO example. -/
def c1pair : Str := "SHIBUSDT".toList

/-- buy₁ of the spec's example: volume 100 at price 0.01 (fee 0). -/
def c1buy1 : FilledBuy := ⟨"B1".toList, c1pair, 100, 0.01, 1, 0⟩

/-- buy₂ of the spec's example: volume 50 at price 0.012 (fee 0). -/
def c1buy2 : FilledBuy := ⟨"B2".toList, c1pair, 50, 0.012, 0.6, 0⟩

/-- The sell of the spec's example: volume 120 at price 0.013, zero fees. -/
def c1sell : SellTrade := ⟨c1pair, 120, 0.013, 0⟩

/-- Recorded trade for buy₁ (timestamp 1000, nothing matched yet). -/
def c1rec1 : TradeRecord := ⟨"B1".toList, .buy, c1pair, 0.01, 100, 0, 1000, 0, false⟩

/-- Recorded trade for buy₂ (timestamp 2000, nothing matched yet). -/
def c1rec2 : TradeRecord := ⟨"B2".toList, .buy, c1pair, 0.012, 50, 0, 2000, 0, false⟩

/-! ## Helper lemmas -/

theorem sum_map_filter_split {α : Type} (p : α → Bool) (f : α → ℚ) (l : List α) :
    ((l.filter p).map f).sum + ((l.filter fun a => !p a).map f).sum
      = (l.map f).sum := by
  induction l with
  | nil => simp
  | cons a l ih =>
    by_cases h : p a = true
    · simp only [List.filter_cons, h, Bool.not_true, if_true]
      simp only [List.map_cons, List.sum_cons, if_false, Bool.false_eq_true]
      rw [← ih]; ring
    · simp only [List.filter_cons, h, Bool.not_eq_true] at *
      simp only [List.filter_cons, h, Bool.not_false, if_true,
        Bool.false_eq_true, if_false, List.map_cons, List.sum_cons]
      rw [← ih]; ring

theorem sum_map_nonneg {α : Type} (f : α → ℚ) (l : List α)
    (h : ∀ a ∈ l, 0 ≤ f a) : 0 ≤ (l.map f).sum := by
  refine List.sum_nonneg ?_
  intro x hx
  obtain ⟨a, ha, rfl⟩ := List.mem_map.mp hx
  exact h a ha

theorem validOrder_iff (o : OpenOrder) :
    validOrder o = true ↔ o.hasRequired = true ∧ 0 < priceOf o ∧ 0 < o.vol := by
  simp [validOrder, Bool.and_eq_true, and_assoc]

theorem orderValue_pos_of_valid (o : OpenOrder) (h : validOrder o = true) :
    0 < orderValue o := by
  obtain ⟨-, hp, hv⟩ := (validOrder_iff o).mp h
  exact mul_pos hp hv

theorem manage_ledger_eq (orders : List OpenOrder) (now : ℚ)
    (market : Str → Option ℚ) (outcome : CancelOutcome) (ledgerIn : ℚ)
    (h : ∀ o ∈ orders, validOrder o = true) :
    (manage_open_orders orders now market outcome ledgerIn).1
      = ((orders.filter fun o => !markedForCancel now market o).map
          orderValue).sum := by
  have hfilter : orders.filter validOrder = orders := List.filter_eq_self.mpr h
  have hsplit := sum_map_filter_split (markedForCancel now market) orderValue orders
  have hkept : 0 ≤ ((orders.filter fun o => !markedForCancel now market o).map
      orderValue).sum := by
    refine sum_map_nonneg _ _ ?_
    intro a ha
    exact le_of_lt (orderValue_pos_of_valid a (h a (List.mem_of_mem_filter ha)))
  have hcancel : 0 ≤ ((orders.filter fun o => markedForCancel now market o).map
      orderValue).sum := by
    refine sum_map_nonneg _ _ ?_
    intro a ha
    exact le_of_lt (orderValue_pos_of_valid a (h a (List.mem_of_mem_filter ha)))
  simp only [manage_open_orders, hfilter]
  by_cases hc : 0 < ((orders.filter fun o => markedForCancel now market o).map
      orderValue).sum
  · rw [if_pos hc, ← hsplit]
    have : ((orders.filter fun o => markedForCancel now market o).map orderValue).sum
        + ((orders.filter fun o => !markedForCancel now market o).map orderValue).sum
        - ((orders.filter fun o => markedForCancel now market o).map orderValue).sum
        = ((orders.filter fun o => !markedForCancel now market o).map orderValue).sum := by
      ring
    rw [this, max_eq_right hkept]
  · rw [if_neg hc, ← hsplit]
    have hzero : ((orders.filter fun o => markedForCancel now market o).map
        orderValue).sum = 0 := le_antisymm (not_lt.mp hc) hcancel
    rw [hzero, zero_add]

theorem mem_insertByTxid (a b : FilledBuy) (l : List FilledBuy) :
    a ∈ insertByTxid b l ↔ a = b ∨ a ∈ l := by
  induction l with
  | nil => simp [insertByTxid]
  | cons c cs ih =>
    simp only [insertByTxid]
    by_cases h : strLt c.txid b.txid = true
    · rw [if_pos h]
      simp only [List.mem_cons, ih]
      tauto
    · rw [if_neg h]
      simp only [List.mem_cons]

theorem mem_sortByTxid (a : FilledBuy) (l : List FilledBuy) :
    a ∈ sortByTxid l ↔ a ∈ l := by
  induction l with
  | nil => simp [sortByTxid]
  | cons b bs ih =>
    simp only [sortByTxid, mem_insertByTxid, ih, List.mem_cons]

theorem insertByTxid_map_sum (f : FilledBuy → ℚ) (b : FilledBuy)
    (l : List FilledBuy) :
    ((insertByTxid b l).map f).sum = f b + (l.map f).sum := by
  induction l with
  | nil => simp [insertByTxid]
  | cons c cs ih =>
    simp only [insertByTxid]
    by_cases h : strLt c.txid b.txid = true
    · rw [if_pos h]
      simp only [List.map_cons, List.sum_cons, ih]
      ring
    · rw [if_neg h]
      simp only [List.map_cons, List.sum_cons]

theorem sortByTxid_map_sum (f : FilledBuy → ℚ) (l : List FilledBuy) :
    ((sortByTxid l).map f).sum = (l.map f).sum := by
  induction l with
  | nil => rfl
  | cons b bs ih =>
    simp only [sortByTxid, insertByTxid_map_sum, ih, List.map_cons, List.sum_cons]

theorem fifoMatch_exhausting (bs : List FilledBuy) (rem : ℚ)
    (hpos : ∀ b ∈ bs, 0 < b.volume)
    (hlt : (bs.map FilledBuy.volume).sum < rem) :
    fifoMatch bs rem
      = (rem - (bs.map FilledBuy.volume).sum,
         (bs.map fun b => b.volume * b.price).sum,
         (bs.map FilledBuy.fee).sum,
         bs.map fun b => (b, b.volume)) := by
  induction bs generalizing rem with
  | nil => simp [fifoMatch]
  | cons b bs ih =>
    have hb : 0 < b.volume := hpos b (List.mem_cons_self b bs)
    have hbs : ∀ x ∈ bs, 0 < x.volume := fun x hx => hpos x (List.mem_cons_of_mem b hx)
    have hsum : 0 ≤ (bs.map FilledBuy.volume).sum :=
      sum_map_nonneg _ _ (fun x hx => le_of_lt (hbs x hx))
    have hv : b.volume ≤ (List.map FilledBuy.volume (b :: bs)).sum := by
      simp only [List.map_cons, List.sum_cons]
      linarith
    have hrem : 0 < rem := lt_of_le_of_lt (le_trans (le_of_lt hb) hv) hlt
    have hmin : min rem b.volume = b.volume :=
      min_eq_right (le_trans hv (le_of_lt hlt))
    have hlt2 : (bs.map FilledBuy.volume).sum < rem - b.volume := by
      simp only [List.map_cons, List.sum_cons] at hlt
      linarith
    simp only [fifoMatch, not_le.mpr hrem, if_neg (not_le.mpr hrem), if_pos hb,
      hmin, ih (rem - b.volume) hbs hlt2, div_self (ne_of_gt hb)]
    simp only [List.map_cons, List.sum_cons, mul_one]
    refine Prod.ext ?_ (Prod.ext ?_ (Prod.ext ?_ rfl)) <;> simp <;> ring

/-- C1: FIFO profit reconciliation on the spec's concrete example.  With
buy₁ (volume 100 at 0.01), buy₂ (volume 50 at 0.012) and a sell of
volume 120 at 0.013 with zero fees, `calculate_trade_profit` consumes the
buys oldest-first (their txids B1 < B2 carry the 1000 < 2000 timestamp
order), giving matched cost 1.24, revenue 1.56 and realized profit 0.32
with nothing left unmatched.  The claimed persistence, however, never
happens: `update_matched_buy_trades` aborts on a `NameError` (profit.py
imports `config` only inside `calculate_trade_profit`, so line 142's
`config.TRADES_FILE` is unresolved) swallowed at line 180, leaving both
records untouched, whereas its own docstring, the spec and the update
loop written in its body (here `update_matched_buy_trades_body`) call for
buy₁ to become fully matched and buy₂ to record matched_volume 20 — the
two outcomes proved distinct. -/
theorem c1_fifo_profit_and_failed_persistence :
    calculate_trade_profit c1sell [c1buy1, c1buy2]
      = some ⟨0.32, 1.24, 0, 1.56, 0, [(c1buy1, 100), (c1buy2, 20)]⟩
    ∧ update_matched_buy_trades [c1rec1, c1rec2]
        [("B1".toList, 100), ("B2".toList, 20)] c1pair
      = [c1rec1, c1rec2]
    ∧ update_matched_buy_trades_body [c1rec1, c1rec2]
        [("B1".toList, 100), ("B2".toList, 20)] c1pair
      = [⟨"B1".toList, .buy, c1pair, 0.01, 100, 0, 1000, 100, true⟩,
         ⟨"B2".toList, .buy, c1pair, 0.012, 50, 0, 2000, 20, false⟩]
    ∧ ([c1rec1, c1rec2]
        ≠ [⟨"B1".toList, .buy, c1pair, 0.01, 100, 0, 1000, 100, true⟩,
           ⟨"B2".toList, .buy, c1pair, 0.012, 50, 0, 2000, 20, false⟩]) := by
  refine ⟨?_, rfl, ?_, ?_⟩
  · norm_num [calculate_trade_profit, sortByTxid, insertByTxid, strLt, fifoMatch,
      c1sell, c1buy1, c1buy2, min_def]
  · norm_num [update_matched_buy_trades_body, updateFirstMatching,
      applyMatchUpdate, c1rec1, c1rec2, c1pair]
    decide
  · norm_num [c1rec1, c1rec2]

/-- C6 counterexample: a sell of volume 10 at price 1 against a single
fully available buy of volume 4 at price 1 (all fees zero).  The claim
says the sell revenue counted toward profit covers only the matched
volume (4 × 1 = 4, for a profit of 0); the code computes revenue over the
full sell volume (10 × 1 = 10) and returns profit 6. -/
theorem c6_counterexample :
    calculate_trade_profit ⟨c1pair, 10, 1, 0⟩ [⟨"B1".toList, c1pair, 4, 1, 4, 0⟩]
      = some ⟨6, 4, 0, 10, 6, [(⟨"B1".toList, c1pair, 4, 1, 4, 0⟩, 4)]⟩
    ∧ (10 : ℚ) ≠ 4 := by
  refine ⟨?_, by norm_num⟩
  norm_num [calculate_trade_profit, sortByTxid, insertByTxid, strLt, fifoMatch,
    min_def]

/-- C6 amended: when the sell volume exceeds the total available buy
volume, `calculate_trade_profit` leaves a positive unmatched remainder
(which the code logs as a shortfall warning), restricts the cost side to
the matched buys without fabricating any synthetic buy — every match
entry carries exactly one real buy order with its own volume — but the
revenue side still counts the full sell volume, so
`profit = sell_volume * sell_price - (matched cost + matched fees + sell fee)`. -/
theorem c6_shortfall_profit (sell : SellTrade) (buys : List FilledBuy)
    (hne : buys ≠ []) (hsv : 0 < sell.volume)
    (hpos : ∀ b ∈ buys, 0 < b.volume)
    (hshort : (buys.map FilledBuy.volume).sum < sell.volume) :
    calculate_trade_profit sell buys
      = some ⟨sell.volume * sell.price
                - ((buys.map fun b => b.volume * b.price).sum
                    + (buys.map FilledBuy.fee).sum + sell.fees),
              (buys.map fun b => b.volume * b.price).sum,
              (buys.map FilledBuy.fee).sum,
              sell.volume * sell.price,
              sell.volume - (buys.map FilledBuy.volume).sum,
              (sortByTxid buys).map fun b => (b, b.volume)⟩
    ∧ 0 < sell.volume - (buys.map FilledBuy.volume).sum := by
  have hpos' : ∀ b ∈ sortByTxid buys, 0 < b.volume := by
    intro b hb
    exact hpos b ((mem_sortByTxid b buys).mp hb)
  have hsum : ((sortByTxid buys).map FilledBuy.volume).sum
      = (buys.map FilledBuy.volume).sum := sortByTxid_map_sum _ _
  have hshort' : ((sortByTxid buys).map FilledBuy.volume).sum < sell.volume := by
    rw [hsum]; exact hshort
  have hmain := fifoMatch_exhausting (sortByTxid buys) sell.volume hpos' hshort'
  have hempty : buys.isEmpty = false := by
    cases buys with
    | nil => exact absurd rfl hne
    | cons a l => rfl
  have hguard : ¬(buys.isEmpty = true ∨ sell.volume ≤ 0) := by
    rw [hempty]
    simp [not_le.mpr hsv]
  constructor
  · simp only [calculate_trade_profit, hmain]
    rw [if_neg hguard]
    simp only [sortByTxid_map_sum]
  · linarith [sum_map_nonneg FilledBuy.volume buys
      (fun b hb => le_of_lt (hpos b hb))]

/-- C6 witness: the amended shortfall statement instantiated at a sell of
volume 10 against one buy of volume 4. -/
theorem c6_shortfall_profit_witness :
    calculate_trade_profit ⟨c1pair, 10, 1, 0⟩ [⟨"X1".toList, c1pair, 4, 1, 4, 0⟩]
      = some ⟨6, 4, 0, 10, 6, [(⟨"X1".toList, c1pair, 4, 1, 4, 0⟩, 4)]⟩ := by
  have h := c6_shortfall_profit ⟨c1pair, 10, 1, 0⟩
    [⟨"X1".toList, c1pair, 4, 1, 4, 0⟩]
    (by simp) (by norm_num) (by norm_num) (by norm_num)
  rw [h.1]
  norm_num [sortByTxid, insertByTxid]

theorem sum_stillOpenAfter_split (orders : List OpenOrder) (now : ℚ)
    (market : Str → Option ℚ) (f : CancelOutcome)
    (h : ∀ o ∈ orders, validOrder o = true) :
    ((stillOpenAfter orders now market f).map orderValue).sum
      = ((orders.filter fun o => !markedForCancel now market o).map orderValue).sum
        + ((orders.filter fun o =>
              markedForCancel now market o && !f o.txid).map orderValue).sum := by
  induction orders with
  | nil => simp [stillOpenAfter]
  | cons a l ih =>
    have ha : validOrder a = true := h a (List.mem_cons_self a l)
    have hl : ∀ o ∈ l, validOrder o = true :=
      fun o ho => h o (List.mem_cons_of_mem a ho)
    have ihl := ih hl
    simp only [stillOpenAfter] at ihl ⊢
    cases hm : markedForCancel now market a <;> cases hf : f a.txid <;>
      simp only [List.filter_cons, ha, hm, hf, Bool.and_true, Bool.and_false,
        Bool.true_and, Bool.false_and, Bool.not_true, Bool.not_false,
        Bool.and_self, if_true, if_false, Bool.false_eq_true, Bool.true_eq_false,
        List.map_cons, List.sum_cons, ihl] <;> ring

/-- C2: after `manage_open_orders` reconciles an exchange, the ledger entry
written into `exchange_open_order_values` equals the sum of price × volume
over the orders that remain open (those not marked for cancellation),
whatever ledger value any earlier sequence of placements and cancellations
left behind — the function resets and recomputes it — provided every open
order passes the field validation; and the ledger entry is never negative,
on any input at all. -/
theorem c2_ledger_reconciliation :
    (∀ (orders : List OpenOrder) (now : ℚ) (market : Str → Option ℚ)
        (outcome : CancelOutcome) (ledgerIn : ℚ),
      (∀ o ∈ orders, validOrder o = true) →
      (manage_open_orders orders now market outcome ledgerIn).1
        = ((orders.filter fun o => !markedForCancel now market o).map
            orderValue).sum)
    ∧ (∀ (orders : List OpenOrder) (now : ℚ) (market : Str → Option ℚ)
        (outcome : CancelOutcome) (ledgerIn : ℚ),
      0 ≤ (manage_open_orders orders now market outcome ledgerIn).1) := by
  constructor
  · intro orders now market outcome ledgerIn h
    exact manage_ledger_eq orders now market outcome ledgerIn h
  · intro orders now market outcome ledgerIn
    simp only [manage_open_orders]
    by_cases hc : 0 < (((orders.filter validOrder).filter
        (markedForCancel now market)).map orderValue).sum
    · rw [if_pos hc]
      exact le_max_left 0 _
    · rw [if_neg hc]
      refine sum_map_nonneg _ _ ?_
      intro a ha
      exact le_of_lt (orderValue_pos_of_valid a (List.of_mem_filter ha))

/-- C2 witness: two valid buy orders at time 1801, the first opened at 0
(and so stale and marked), the second opened at 1500 (kept): the written
ledger equals the kept orders' value and is nonnegative. -/
theorem c2_ledger_reconciliation_witness :
    (manage_open_orders
        [⟨"T1".toList, true, 0, some 1.05, 10, .buy, c1pair⟩,
         ⟨"T2".toList, true, 1500, some 2, 5, .buy, c1pair⟩]
        1801 (fun _ => none) (fun _ => true) 55).1
      = (([⟨"T1".toList, true, 0, some 1.05, 10, .buy, c1pair⟩,
           ⟨"T2".toList, true, 1500, some 2, 5, .buy, c1pair⟩].filter
            fun o => !markedForCancel 1801 (fun _ => none) o).map orderValue).sum
    ∧ 0 ≤ (manage_open_orders
        [⟨"T1".toList, true, 0, some 1.05, 10, .buy, c1pair⟩,
         ⟨"T2".toList, true, 1500, some 2, 5, .buy, c1pair⟩]
        1801 (fun _ => none) (fun _ => true) 55).1 := by
  constructor
  · refine c2_ledger_reconciliation.1 _ _ _ _ _ ?_
    intro o ho
    simp only [List.mem_cons, List.mem_singleton, List.not_mem_nil, or_false] at ho
    rcases ho with rfl | rfl <;> norm_num [validOrder, priceOf]
  · exact c2_ledger_reconciliation.2 _ _ _ _ _

/-- C9: `manage_open_orders` subtracts a marked order's value from the
ledger no matter what its `cancel_order` call returns or raises — the
ledger it writes is the same under any outcome function — so after a
failed cancellation the ledger is strictly smaller than the summed value
of the orders actually still open on the exchange. -/
theorem c9_ledger_ignores_cancel_outcome (orders : List OpenOrder) (now : ℚ)
    (market : Str → Option ℚ) (f g : CancelOutcome) (L L' : ℚ)
    (o₀ : OpenOrder)
    (h : ∀ o ∈ orders, validOrder o = true)
    (hmem : o₀ ∈ orders)
    (hmark : markedForCancel now market o₀ = true)
    (hfail : f o₀.txid = false) :
    (manage_open_orders orders now market f L).1
        = (manage_open_orders orders now market g L').1
    ∧ (manage_open_orders orders now market f L).1
        < ((stillOpenAfter orders now market f).map orderValue).sum := by
  constructor
  · rfl
  · rw [manage_ledger_eq orders now market f L h,
      sum_stillOpenAfter_split orders now market f h]
    have hmemf : o₀ ∈ orders.filter fun o =>
        markedForCancel now market o && !f o.txid := by
      refine List.mem_filter.mpr ⟨hmem, ?_⟩
      rw [hmark, hfail]
      rfl
    have hval : orderValue o₀
        ≤ ((orders.filter fun o =>
            markedForCancel now market o && !f o.txid).map orderValue).sum := by
      refine List.single_le_sum ?_ _ (List.mem_map_of_mem orderValue hmemf)
      intro x hx
      obtain ⟨a, ha, rfl⟩ := List.mem_map.mp hx
      exact le_of_lt (orderValue_pos_of_valid a (h a (List.mem_of_mem_filter ha)))
    have hpos : 0 < orderValue o₀ := orderValue_pos_of_valid o₀ (h o₀ hmem)
    linarith

/-- C9 witness: at time 1801 the order opened at 0 is marked; with an
outcome function reporting every cancel failed, the ledger equals the one
computed under an all-success outcome function and stays strictly below
the value still open on the exchange (both orders). -/
theorem c9_ledger_ignores_cancel_outcome_witness :
    (manage_open_orders
        [⟨"T1".toList, true, 0, some 1.05, 10, .buy, c1pair⟩,
         ⟨"T2".toList, true, 1500, some 2, 5, .buy, c1pair⟩]
        1801 (fun _ => none) (fun _ => false) 7).1
      = (manage_open_orders
        [⟨"T1".toList, true, 0, some 1.05, 10, .buy, c1pair⟩,
         ⟨"T2".toList, true, 1500, some 2, 5, .buy, c1pair⟩]
        1801 (fun _ => none) (fun _ => true) 9).1
    ∧ (manage_open_orders
        [⟨"T1".toList, true, 0, some 1.05, 10, .buy, c1pair⟩,
         ⟨"T2".toList, true, 1500, some 2, 5, .buy, c1pair⟩]
        1801 (fun _ => none) (fun _ => false) 7).1
      < ((stillOpenAfter
          [⟨"T1".toList, true, 0, some 1.05, 10, .buy, c1pair⟩,
           ⟨"T2".toList, true, 1500, some 2, 5, .buy, c1pair⟩]
          1801 (fun _ => none) (fun _ => false)).map orderValue).sum := by
  refine c9_ledger_ignores_cancel_outcome _ _ _ _ _ _ _
    ⟨"T1".toList, true, 0, some 1.05, 10, .buy, c1pair⟩ ?_ ?_ ?_ ?_
  · intro o ho
    simp only [List.mem_cons, List.mem_singleton, List.not_mem_nil, or_false] at ho
    rcases ho with rfl | rfl <;> norm_num [validOrder, priceOf]
  · exact List.mem_cons_self _ _
  · norm_num [markedForCancel]
  · rfl

/-- C4 counterexample: a buy order priced 1.05 reviewed at age 700s with
the market at 1.00.  The order's price is (exactly) 5% above the current
market price, so the claim marks it for cancellation; the code's test is
`current_price < price * 0.95` (1.00 < 0.9975 fails, since 0.95 · 1.05 =
0.9975 < 1), so the order is left active. -/
theorem c4_counterexample :
    markedForCancel 700 (fun _ => some 1)
        ⟨"T1".toList, true, 0, some 1.05, 10, .buy, c1pair⟩ = false
    ∧ (1.05 : ℚ) ≥ 1.05 * 1
    ∧ (600 < (700 : ℚ) - 0 ∧ (700 : ℚ) - 0 ≤ 1800) := by
  refine ⟨?_, by norm_num, by norm_num⟩
  norm_num [markedForCancel, priceOf]

/-- C4 amended: the staleness classification of `manage_open_orders` for a
validated buy order.  Age above 30 minutes cancels unconditionally; in
the 10-to-30-minute review window with a refetched market price the order
is marked exactly when the market has dropped strictly below 95% of the
order price, or risen strictly above 102% of it (the spec's "order price
at least 5% above market" and "market at least 2% above order price" are
off: the code compares `current < price · 0.95` and
`current > price · 1.02`, both strict); at or under 10 minutes the order
is left active.  The spec's examples hold: age 1801s cancels, age 700s
with the market 3% above the order price cancels, age 500s stays. -/
theorem c4_staleness_classification (o : OpenOrder) (now : ℚ)
    (market : Str → Option ℚ)
    (_hvalid : validOrder o = true) (hbuy : o.otype = .buy) :
    (1800 < now - o.opentm → markedForCancel now market o = true)
    ∧ (∀ current : ℚ, 600 < now - o.opentm → now - o.opentm ≤ 1800 →
        market o.pair = some current →
        (markedForCancel now market o = true ↔
          current < priceOf o * 0.95 ∨ priceOf o * 1.02 < current))
    ∧ (now - o.opentm ≤ 600 → markedForCancel now market o = false) := by
  refine ⟨?_, ?_, ?_⟩
  · intro h1
    simp only [markedForCancel]
    rw [if_pos h1]
  · intro current h6 h18 hmkt
    simp only [markedForCancel]
    rw [if_neg (not_lt.mpr h18), if_pos h6, hmkt]
    simp only [hbuy, true_and]
    split_ifs with h1 h2 <;> simp [*]
  · intro h6
    simp only [markedForCancel]
    rw [if_neg (by linarith : ¬(1800 : ℚ) < now - o.opentm),
      if_neg (not_lt.mpr h6)]

/-- C4 witness: the spec's three examples on a buy order priced 1.00
opened at time 0: at time 1801 it is canceled unconditionally, at time
700 with the market at 1.03 it is marked (market more than 2% above), at
time 500 it stays active. -/
theorem c4_staleness_classification_witness :
    markedForCancel 1801 (fun _ => none)
        ⟨"T1".toList, true, 0, some 1, 10, .buy, c1pair⟩ = true
    ∧ markedForCancel 700 (fun _ => some 1.03)
        ⟨"T1".toList, true, 0, some 1, 10, .buy, c1pair⟩ = true
    ∧ markedForCancel 500 (fun _ => some 1)
        ⟨"T1".toList, true, 0, some 1, 10, .buy, c1pair⟩ = false := by
  have hv : validOrder ⟨"T1".toList, true, 0, some 1, 10, .buy, c1pair⟩ = true := by
    norm_num [validOrder, priceOf]
  refine ⟨?_, ?_, ?_⟩
  · exact (c4_staleness_classification _ 1801 _ hv rfl).1 (by norm_num)
  · refine ((c4_staleness_classification _ 700 _ hv rfl).2.1 1.03
      (by norm_num) (by norm_num) rfl).mpr ?_
    right
    norm_num [priceOf]
  · exact (c4_staleness_classification _ 500 _ hv rfl).2.2 (by norm_num)

/-- C3 counterexample: price 0.01, zero fees, balance 1000, no open
orders, lot precision 8 and ordermin 500.  The remaining budget is 100,
the target volume is 100 / 0.01 × 0.03 = 300, and rounding leaves it at
300 — below the minimum order size 500.  The claim says the trade is
refused; the code raises the volume to ordermin
(`max(round(max_volume), ordermin)`) and places a buy of exactly 500
units at the dynamic price 0.010001. -/
theorem c3_counterexample :
    simple_trading_strategy 0.01 0 1000 500 8 8 none 0 = some (500, 0.010001)
    ∧ roundTo 8 ((100 : ℚ) / (0.01 * (1 + 0)) * (0.03 * 1)) < 500 := by
  constructor
  · norm_num [simple_trading_strategy, get_risk_multiplier,
      get_price_range_category, calculate_dynamic_buy_price, roundTo,
      roundHalfEven, MAX_ACCOUNT_USAGE_PERCENT, MAX_TRADE_SIZE_PERCENT,
      PRICE_RANGE_MED, RISK_MULTIPLIER_LOW, min_def, max_def]
  · norm_num [roundTo, roundHalfEven]

/-- C3 amended: when the rounded target volume falls below `ordermin`, the
volume is raised to exactly `ordermin` (the code floors the volume at the
minimum with `max(round(max_volume), ordermin)`, so the subsequent
"below ordermin" refusal branch can never fire) and the buy goes ahead
whenever the budget double-check passes; only that budget check can still
refuse it. -/
theorem c3_below_minimum_is_floored (current_price fees account_balance
    ordermin : ℚ) (lot_decimals price_decimals : ℕ) (book : BookInfo)
    (total : ℚ)
    (hrem : 0 < account_balance * MAX_ACCOUNT_USAGE_PERCENT
        * get_risk_multiplier current_price - total)
    (hmin : 0 < ordermin)
    (hround : roundTo lot_decimals
        ((account_balance * MAX_ACCOUNT_USAGE_PERCENT
            * get_risk_multiplier current_price - total)
          / (current_price * (1 + fees))
          * (MAX_TRADE_SIZE_PERCENT * get_risk_multiplier current_price))
        < ordermin) :
    simple_trading_strategy current_price fees account_balance ordermin
        lot_decimals price_decimals book total
      = if account_balance * MAX_ACCOUNT_USAGE_PERCENT
            * get_risk_multiplier current_price
          < total + calculate_dynamic_buy_price current_price book price_decimals
              * ordermin
        then none
        else some (ordermin,
          calculate_dynamic_buy_price current_price book price_decimals) := by
  simp only [simple_trading_strategy]
  rw [if_neg (not_le.mpr hrem), max_eq_right (le_of_lt hround),
    if_neg (not_le.mpr hmin), if_neg (lt_irrefl ordermin)]

/-- C3 witness: the amended statement instantiated at the counterexample's
inputs, where the budget check passes and a buy of exactly the minimum
volume is placed. -/
theorem c3_below_minimum_is_floored_witness :
    simple_trading_strategy 0.01 0 1000 500 8 8 none 0
      = if (1000 : ℚ) * MAX_ACCOUNT_USAGE_PERCENT * get_risk_multiplier 0.01
            < 0 + calculate_dynamic_buy_price 0.01 none 8 * 500
        then none
        else some (500, calculate_dynamic_buy_price 0.01 none 8) := by
  refine c3_below_minimum_is_floored 0.01 0 1000 500 8 8 none 0 ?_ ?_ ?_
  · norm_num [get_risk_multiplier, get_price_range_category,
      MAX_ACCOUNT_USAGE_PERCENT, PRICE_RANGE_MED, RISK_MULTIPLIER_LOW]
  · norm_num
  · norm_num [roundTo, roundHalfEven, get_risk_multiplier,
      get_price_range_category, MAX_ACCOUNT_USAGE_PERCENT,
      MAX_TRADE_SIZE_PERCENT, PRICE_RANGE_MED, RISK_MULTIPLIER_LOW]

/-- C5 counterexample: a filled buy of 1,000,000 units at 0.000003 (cost
3, fee 0) with price precision 5.  The minimum sell price
0.000003 × 1.003 rounds to 0, making the sell value 0 — far below 95% of
the buy value — yet `check_and_place_sell_orders` places the sell order
anyway: the claimed sanity rejection does not exist on this path. -/
theorem c5_counterexample :
    check_and_place_sell_order ⟨"B9".toList, c1pair, 1000000, 0.000003, 3, 0⟩
        1000 ⟨8, 5, 0.0001⟩
      = some (1000, 0)
    ∧ (1000 : ℚ) * 0 < 1000 * 0.000003 * 0.95 := by
  constructor
  · norm_num [check_and_place_sell_order, get_profit_margin,
      get_price_range_category, roundTo, roundHalfEven, PROFIT_MARGIN_LOW,
      PRICE_RANGE_MED]
  · norm_num

/-- C5 amended: in `check_and_place_sell_orders` the minimum sell price is
`round(buy_price * (1 + 2 * fee_rate + tier profit margin),
price_decimals)` with the fee rate realized from the buy
(`fee / cost`, 0.0026 when the cost is not positive), and once the sell
volume meets `ordermin` the sell is always placed — no sell-value sanity
check is run on this path.  The 95%/200% sanity rejections of the claim
exist only in the superseded `legacy.place_sell_order_kraken`, which does
refuse when the sell value drops below 95% of the buy value, or (that
guard passing) when the expected profit exceeds 200% of the buy value. -/
theorem c5_min_sell_price_no_sanity_check :
    (∀ (buy : FilledBuy) (sellVolume : ℚ) (info : PairInfo),
      info.ordermin ≤ sellVolume →
      check_and_place_sell_order buy sellVolume info
        = some (sellVolume, roundTo info.pair_decimals
            (buy.price * (1 + (if 0 < buy.cost then buy.fee / buy.cost else 0.0026) * 2
              + get_profit_margin buy.price))))
    ∧ (∀ (p v ef : ℚ) (d : ℕ),
        0 < v →
        0 < roundTo d (p * (1 + ef * 2 + get_profit_margin p)) →
        v * roundTo d (p * (1 + ef * 2 + get_profit_margin p)) < v * p * 0.95 →
        place_sell_order_kraken p v ef d = none)
    ∧ (∀ (p v ef : ℚ) (d : ℕ),
        0 < v →
        0 < roundTo d (p * (1 + ef * 2 + get_profit_margin p)) →
        ¬(v * roundTo d (p * (1 + ef * 2 + get_profit_margin p)) < v * p * 0.95) →
        v * p * 2 < v * roundTo d (p * (1 + ef * 2 + get_profit_margin p)) - v * p →
        place_sell_order_kraken p v ef d = none) := by
  refine ⟨?_, ?_, ?_⟩
  · intro buy sellVolume info hvol
    simp only [check_and_place_sell_order]
    rw [if_neg (not_lt.mpr hvol)]
  · intro p v ef d hv hmsp hguard
    simp only [place_sell_order_kraken]
    rw [if_neg (not_le.mpr hv), if_neg (not_le.mpr hmsp), if_pos hguard]
  · intro p v ef d hv hmsp hguard1 hguard2
    simp only [place_sell_order_kraken]
    rw [if_neg (not_le.mpr hv), if_neg (not_le.mpr hmsp), if_neg hguard1,
      if_pos hguard2]

/-- C5 witness: the formula on a buy of 100 units at 0.01 (cost 1, fee
0.0026, low-tier margin); the legacy 95% guard firing at price 0.0000249
with 5 price decimals (rounding pushes the sell price down to 0.00002);
and the legacy 200% guard firing at price 1 with inflated estimated fees
2 (minimum sell price 5.001). -/
theorem c5_min_sell_price_no_sanity_check_witness :
    check_and_place_sell_order ⟨"B7".toList, c1pair, 100, 0.01, 1, 0.0026⟩
        100 ⟨8, 5, 0.0001⟩
      = some (100, roundTo 5
          (0.01 * (1 + (if (0 : ℚ) < 1 then 0.0026 / 1 else 0.0026) * 2
            + get_profit_margin 0.01)))
    ∧ place_sell_order_kraken 0.0000249 1000 0 5 = none
    ∧ place_sell_order_kraken 1 1000 2 5 = none := by
  refine ⟨c5_min_sell_price_no_sanity_check.1 _ _ _ (by norm_num), ?_, ?_⟩
  · refine c5_min_sell_price_no_sanity_check.2.1 0.0000249 1000 0 5
      (by norm_num) ?_ ?_
    · norm_num [roundTo, roundHalfEven, get_profit_margin,
        get_price_range_category, PROFIT_MARGIN_LOW, PRICE_RANGE_MED]
    · norm_num [roundTo, roundHalfEven, get_profit_margin,
        get_price_range_category, PROFIT_MARGIN_LOW, PRICE_RANGE_MED]
  · refine c5_min_sell_price_no_sanity_check.2.2 1 1000 2 5
      (by norm_num) ?_ ?_ ?_
    · norm_num [roundTo, roundHalfEven, get_profit_margin,
        get_price_range_category, PROFIT_MARGIN_HIGH, PRICE_RANGE_MED,
        PRICE_RANGE_HIGH]
    · norm_num [roundTo, roundHalfEven, get_profit_margin,
        get_price_range_category, PROFIT_MARGIN_HIGH, PRICE_RANGE_MED,
        PRICE_RANGE_HIGH]
    · norm_num [roundTo, roundHalfEven, get_profit_margin,
        get_price_range_category, PROFIT_MARGIN_HIGH, PRICE_RANGE_MED,
        PRICE_RANGE_HIGH]

theorem cache_hit_eq (entry : CacheEntry) (now : ℚ) (b : Balance)
    (fetch : ℕ → FetchResult) (hdata : entry.data = some b) (hne : b ≠ [])
    (hage : now - entry.timestamp < BALANCE_CACHE_DURATION) :
    get_cached_balance entry now false fetch = ⟨some b, entry, 0⟩ := by
  have hempty : b.isEmpty = false := by
    cases b with
    | nil => exact absurd rfl hne
    | cons x xs => rfl
  have hcond : (!false && cacheDataTruthy entry.data
      && decide (now - entry.timestamp < BALANCE_CACHE_DURATION)) = true := by
    rw [hdata]
    simp [cacheDataTruthy, hempty, hage]
  simp only [get_cached_balance, hcond, if_true]
  rw [hdata]

theorem fresh_fetch_eq (entry : CacheEntry) (now : ℚ) (b : Balance)
    (fetch : ℕ → FetchResult)
    (hage : BALANCE_CACHE_DURATION ≤ now - entry.timestamp)
    (hf : fetch 0 = .dict b false) (hne : b ≠ []) :
    get_cached_balance entry now false fetch = ⟨some b, ⟨some b, now⟩, 1⟩ := by
  have hempty : b.isEmpty = false := by
    cases b with
    | nil => exact absurd rfl hne
    | cons x xs => rfl
  have hcond : (!false && cacheDataTruthy entry.data
      && decide (now - entry.timestamp < BALANCE_CACHE_DURATION)) = false := by
    simp [not_lt.mpr hage]
  have hstep : fetchStep (fetch 0) = .success b := by
    rw [hf]
    simp [fetchStep, hempty]
  simp only [get_cached_balance, hcond, Bool.false_eq_true, if_false,
    fetchLoop, hstep]

theorem fetchLoop_requests_pos (entry : CacheEntry) (now : ℚ)
    (fetch : ℕ → FetchResult) :
    ∀ (k i : ℕ), i + 1 ≤ (fetchLoop entry now fetch i (k + 1)).requests := by
  intro k
  induction k with
  | zero =>
    intro i
    simp only [fetchLoop]
    cases fetchStep (fetch i) with
    | success b => exact le_refl _
    | retry => simp only [fetchLoop]; exact le_refl _
    | abort => exact le_refl _
  | succ k ih =>
    intro i
    simp only [fetchLoop]
    cases fetchStep (fetch i) with
    | success b => exact le_refl _
    | retry => exact le_trans (by omega) (ih (i + 1))
    | abort => exact le_refl _

/-- C7: with the 60-second TTL of `config.BALANCE_CACHE_DURATION`, a
non-forced `get_cached_balance` whose truthy cache entry is younger than
the TTL returns the cached mapping, issues no network request and leaves
the cache slot untouched; once the age reaches the TTL it issues a fresh
request, and on a successful (non-rate-limited, non-empty) first response
returns it and overwrites the cached data and timestamp with the fresh
response and the current time. -/
theorem c7_balance_cache_ttl :
    (∀ (entry : CacheEntry) (now : ℚ) (b : Balance) (fetch : ℕ → FetchResult),
      entry.data = some b → b ≠ [] →
      now - entry.timestamp < BALANCE_CACHE_DURATION →
      get_cached_balance entry now false fetch = ⟨some b, entry, 0⟩)
    ∧ (∀ (entry : CacheEntry) (now : ℚ) (b : Balance) (fetch : ℕ → FetchResult),
      BALANCE_CACHE_DURATION ≤ now - entry.timestamp →
      fetch 0 = .dict b false → b ≠ [] →
      get_cached_balance entry now false fetch = ⟨some b, ⟨some b, now⟩, 1⟩) :=
  ⟨fun entry now b fetch hdata hne hage =>
      cache_hit_eq entry now b fetch hdata hne hage,
   fun entry now b fetch hage hf hne =>
      fresh_fetch_eq entry now b fetch hage hf hne⟩

/-- C7 witness: a cache slot holding USD 5 stored at time 100.  At time
130 (age 30 < 60) the cached mapping is served with zero requests; at
time 170 (age 70 ≥ 60) one request is issued and the fresh USD 7 response
replaces the slot's data and timestamp. -/
theorem c7_balance_cache_ttl_witness :
    get_cached_balance ⟨some [("USD".toList, 5)], 100⟩ 130 false
        (fun _ => .noneResp)
      = ⟨some [("USD".toList, 5)], ⟨some [("USD".toList, 5)], 100⟩, 0⟩
    ∧ get_cached_balance ⟨some [("USD".toList, 5)], 100⟩ 170 false
        (fun _ => .dict [("USD".toList, 7)] false)
      = ⟨some [("USD".toList, 7)], ⟨some [("USD".toList, 7)], 170⟩, 1⟩ := by
  constructor
  · exact c7_balance_cache_ttl.1 _ 130 [("USD".toList, 5)] _ rfl (by simp)
      (by norm_num [BALANCE_CACHE_DURATION])
  · exact c7_balance_cache_ttl.2 _ 170 [("USD".toList, 7)] _
      (by norm_num [BALANCE_CACHE_DURATION]) rfl (by simp)

/-- C10: `get_cached_balance` treats a `None` or empty cached mapping as a
cache miss — even unforced and inside the TTL it issues at least one
network request — and whenever it answers without issuing any request the
cache entry held a non-empty mapping, which is what it returns. -/
theorem c10_empty_cache_is_miss :
    (∀ (entry : CacheEntry) (now : ℚ) (force : Bool) (fetch : ℕ → FetchResult),
      entry.data = none ∨ entry.data = some [] →
      1 ≤ (get_cached_balance entry now force fetch).requests)
    ∧ (∀ (entry : CacheEntry) (now : ℚ) (force : Bool) (fetch : ℕ → FetchResult),
      (get_cached_balance entry now force fetch).requests = 0 →
      ∃ b : Balance, b ≠ [] ∧ entry.data = some b
        ∧ (get_cached_balance entry now force fetch).ret = some b) := by
  constructor
  · intro entry now force fetch hdata
    have htruthy : cacheDataTruthy entry.data = false := by
      rcases hdata with h | h <;> rw [h] <;> rfl
    simp only [get_cached_balance, htruthy, Bool.and_false, Bool.false_and,
      Bool.false_eq_true, if_false]
    exact fetchLoop_requests_pos entry now fetch 2 0
  · intro entry now force fetch hreq
    by_cases hcond : (!force && cacheDataTruthy entry.data
        && decide (now - entry.timestamp < BALANCE_CACHE_DURATION)) = true
    · have htruthy : cacheDataTruthy entry.data = true := by
        have h := hcond
        simp only [Bool.and_eq_true] at h
        exact h.1.2
      cases hdata : entry.data with
      | none => rw [hdata] at htruthy; exact absurd htruthy (by simp [cacheDataTruthy])
      | some b =>
        cases b with
        | nil =>
          rw [hdata] at htruthy
          exact absurd htruthy (by simp [cacheDataTruthy])
        | cons x xs =>
          refine ⟨x :: xs, List.cons_ne_nil x xs, rfl, ?_⟩
          simp only [get_cached_balance, hcond, if_true]
          exact hdata
    · exfalso
      have : 1 ≤ (get_cached_balance entry now force fetch).requests := by
        simp only [get_cached_balance, hcond, if_false]
        exact fetchLoop_requests_pos entry now fetch 2 0
      omega

/-- C10 witness: an empty cached mapping stored at time 100, queried
unforced at time 130 (age 30, inside the TTL), still issues a request;
and the cache-hit path at time 130 on a slot holding USD 5 serves that
non-empty mapping with zero requests. -/
theorem c10_empty_cache_is_miss_witness :
    1 ≤ (get_cached_balance ⟨some [], 100⟩ 130 false
        (fun _ => .noneResp)).requests
    ∧ ∃ b : Balance, b ≠ []
        ∧ (⟨some [("USD".toList, 5)], 100⟩ : CacheEntry).data = some b
        ∧ (get_cached_balance ⟨some [("USD".toList, 5)], 100⟩ 130 false
            (fun _ => .noneResp)).ret = some b := by
  constructor
  · exact c10_empty_cache_is_miss.1 _ 130 false _ (Or.inr rfl)
  · refine c10_empty_cache_is_miss.2 _ 130 false _ ?_
    rw [cache_hit_eq ⟨some [("USD".toList, 5)], 100⟩ 130 [("USD".toList, 5)]
      (fun _ => .noneResp) rfl (by simp) (by norm_num [BALANCE_CACHE_DURATION])]

theorem contains_underscore_append (xs ys : Str) :
    ((xs ++ '_' :: ys).contains '_') = true := by
  induction xs with
  | nil => simp
  | cons c cs ih => simp [ih]

theorem bitmart_normalize_of_contains (p : Str) (h : p.contains '_' = true) :
    bitmart_normalize_pair p = p := by
  simp only [bitmart_normalize_pair, h, Bool.not_true, Bool.false_and,
    Bool.false_eq_true, if_false]

theorem kraken_normalize_of_not_contains (p : Str)
    (h : p.contains '_' = false) : kraken_normalize_pair p = p := by
  simp only [kraken_normalize_pair]
  refine List.filter_eq_self.mpr ?_
  intro a ha
  have hne : a ≠ '_' := by
    intro heq
    subst heq
    simp at h
    exact h ha
  simpa using hne

theorem kraken_normalize_idem (p : Str) :
    kraken_normalize_pair (kraken_normalize_pair p) = kraken_normalize_pair p := by
  simp only [kraken_normalize_pair]
  induction p with
  | nil => rfl
  | cons c cs ih =>
    by_cases h : (c != '_') = true
    · simp only [List.filter_cons, h, if_true, ih]
    · simp only [Bool.not_eq_true] at h
      simp only [List.filter_cons, h, Bool.false_eq_true, if_false, ih]

theorem bitmart_normalize_idem (p : Str) :
    bitmart_normalize_pair (bitmart_normalize_pair p) = bitmart_normalize_pair p := by
  by_cases hc : (!p.contains '_' && decide (4 < p.length)) = true
  · have h1 : bitmart_normalize_pair p =
        if ("USDT".toList).isSuffixOf p then
          p.take (p.length - 4) ++ "_USDT".toList
        else if ("USD".toList).isSuffixOf p then
          p.take (p.length - 3) ++ "_USD".toList
        else if ("BTC".toList).isSuffixOf p then
          p.take (p.length - 3) ++ "_BTC".toList
        else if ("ETH".toList).isSuffixOf p then
          p.take (p.length - 3) ++ "_ETH".toList
        else p := by
      simp only [bitmart_normalize_pair]
      rw [if_pos hc]
    rw [h1]
    split_ifs with h2 h3 h4 h5
    · exact bitmart_normalize_of_contains _
        (contains_underscore_append (p.take (p.length - 4)) ("USDT".toList))
    · exact bitmart_normalize_of_contains _
        (contains_underscore_append (p.take (p.length - 3)) ("USD".toList))
    · exact bitmart_normalize_of_contains _
        (contains_underscore_append (p.take (p.length - 3)) ("BTC".toList))
    · exact bitmart_normalize_of_contains _
        (contains_underscore_append (p.take (p.length - 3)) ("ETH".toList))
    · rw [h1, if_neg h2, if_neg h3, if_neg h4, if_neg h5]
  · have h1 : bitmart_normalize_pair p = p := by
      simp only [bitmart_normalize_pair]
      rw [if_neg hc]
    rw [h1, h1]

/-- C8 counterexample: Kraken's `normalize_pair` maps both BTC_USDT and
BTCUSDT — both supported pair spellings in this codebase — to BTCUSDT, so
no function can invert it on both: `denormalize(normalize(p)) == p`
cannot hold for every supported pair, and indeed no `denormalize` exists
anywhere in the repository. -/
theorem c8_counterexample :
    ¬ ∃ denorm : Str → Str,
        denorm (kraken_normalize_pair ("BTC_USDT".toList)) = "BTC_USDT".toList
        ∧ denorm (kraken_normalize_pair ("BTCUSDT".toList)) = "BTCUSDT".toList := by
  rintro ⟨denorm, h1, h2⟩
  have he : kraken_normalize_pair ("BTC_USDT".toList)
      = kraken_normalize_pair ("BTCUSDT".toList) := by decide
  rw [he] at h1
  rw [h1] at h2
  exact absurd h2 (by decide)

/-- C8 amended: `normalize_pair` / `get_pair_format` (one function on each
exchange) is idempotent on every pair string for both `ExchangeKraken`
and `ExchangeBitMart` — applying the conversion twice equals applying it
once — and on a pair already in Kraken's own underscore-free format the
conversion is the identity, so re-normalizing a converted pair gives the
same pair back.  But the conversion has no inverse: Kraken's normalizer
identifies BTC_USDT with BTCUSDT, so no `denormalize` recovering every
supported spelling can exist (and none is defined in the repository). -/
theorem c8_normalize_idempotent (p : Str) :
    kraken_normalize_pair (kraken_normalize_pair p) = kraken_normalize_pair p
    ∧ bitmart_normalize_pair (bitmart_normalize_pair p) = bitmart_normalize_pair p
    ∧ (p.contains '_' = false → kraken_normalize_pair p = p) :=
  ⟨kraken_normalize_idem p, bitmart_normalize_idem p,
   fun h => kraken_normalize_of_not_contains p h⟩

/-- C8 witness: the idempotence statement at the concrete pair BTCUSDT,
which contains no underscore, so Kraken's conversion also fixes it. -/
theorem c8_normalize_idempotent_witness :
    kraken_normalize_pair (kraken_normalize_pair ("BTCUSDT".toList))
        = kraken_normalize_pair ("BTCUSDT".toList)
    ∧ bitmart_normalize_pair (bitmart_normalize_pair ("BTCUSDT".toList))
        = bitmart_normalize_pair ("BTCUSDT".toList)
    ∧ kraken_normalize_pair ("BTCUSDT".toList) = "BTCUSDT".toList := by
  have h := c8_normalize_idempotent ("BTCUSDT".toList)
  exact ⟨h.1, h.2.1, h.2.2 (by decide)⟩
